import Mathlib

/-!
Shallow embedding of the ksense healthcare assessment repository
(src/riskScoring.js and src/apiClient.js) and verification of the
specification's claims about it.

Modelling conventions: JavaScript strings are lists of characters; absent,
null or undefined values are Option.none or a dedicated constructor;
JavaScript decimal numbers are exact decimal values (an integer mantissa
with a power-of-ten denominator), which represents every numeric literal of
the source exactly; the outcomes of successive network calls are supplied as
a list, one element per axios call, so every loop is structurally recursive.
-/

/-- A JavaScript string, modelled as its list of characters. -/
abbrev JsStr := List Char

/-- ASCII digit test; models the d character class of the source's regexes
    and the digits accepted by parseInt / parseFloat. -/
def isDigitCh (c : Char) : Bool := decide (48 ≤ c.toNat ∧ c.toNat ≤ 57)

/-- ASCII upper-casing of one character; models JavaScript toUpperCase on the
    ASCII data this repository compares against. -/
def upChar (c : Char) : Char :=
  if 97 ≤ c.toNat ∧ c.toNat ≤ 122 then Char.ofNat (c.toNat - 32) else c

/-- ASCII whitespace, as skipped by JavaScript parseFloat / parseInt / trim. -/
def isWsCh (c : Char) : Bool := c == ' ' || c == '\t' || c == '\n' || c == '\r'

/-- An exact decimal value num / 10 ^ exp.  Stands in for the JavaScript
    floating-point numbers of the source, whose comparisons here only involve
    short decimal constants. -/
structure DecVal where
  num : Int
  exp : Nat
deriving DecidableEq

/-- Less-or-equal on decimal values, by cross multiplication. -/
def DecVal.le (a b : DecVal) : Bool :=
  decide (a.num * (10 : Int) ^ b.exp ≤ b.num * (10 : Int) ^ a.exp)

/-- Numeric value of a list of decimal digit characters. -/
def digitsVal (ds : List Char) : Nat := ds.foldl (fun a c => a * 10 + (c.toNat - 48)) 0

/-- Core of JavaScript parseFloat: the longest numeric prefix of the form
    digits [ . digits ]; none models NaN (no digit consumed).  Exponent
    notation is not modelled; the repository's data never uses it. -/
def parseFloatCore (cs : List Char) : Option DecVal :=
  match cs.dropWhile isDigitCh with
  | '.' :: rest2 =>
    if cs.takeWhile isDigitCh = [] ∧ rest2.takeWhile isDigitCh = [] then none
    else some ⟨Int.ofNat (digitsVal (cs.takeWhile isDigitCh)
                  * 10 ^ (rest2.takeWhile isDigitCh).length
                  + digitsVal (rest2.takeWhile isDigitCh)),
               (rest2.takeWhile isDigitCh).length⟩
  | _ =>
    if cs.takeWhile isDigitCh = [] then none
    else some ⟨Int.ofNat (digitsVal (cs.takeWhile isDigitCh)), 0⟩

/-- JavaScript parseFloat on a string: skip leading whitespace, read an
    optional sign, then the numeric prefix. -/
def parseFloatStr (cs : JsStr) : Option DecVal :=
  match cs.dropWhile isWsCh with
  | '-' :: rest => (parseFloatCore rest).map (fun v => ⟨-v.num, v.exp⟩)
  | '+' :: rest => parseFloatCore rest
  | rest => parseFloatCore rest

/-- The raw temperature field of a record: absent (null / undefined), a
    number, or a string. -/
inductive TempInput
  | missing
  | num (v : DecVal)
  | str (s : JsStr)
deriving DecidableEq

/-- parseFloat applied to the raw field exactly as the source does: a number
    parses to itself, an absent value to NaN (none), a string through the
    numeric-prefix parser. -/
def parseFloatJs : TempInput → Option DecVal
  | TempInput.missing => none
  | TempInput.num v => some v
  | TempInput.str s => parseFloatStr s

/-- The record returned by the three per-field scorers of src/riskScoring.js:
    score together with the hasIssue flag. -/
structure RiskComponent where
  score : Nat
  hasIssue : Bool
deriving DecidableEq

/-- Invalid-token set of getTempRisk's first check (matched against the
    upper-cased whole string). -/
def tempInvalidTokens : List JsStr :=
  [['I','N','V','A','L','I','D'], ['E','R','R','O','R'],
   ['T','E','M','P','_','E','R','R','O','R'], ['N','/','A'],
   ['N','U','L','L'], ['U','N','D','E','F','I','N','E','D']]

/-- The first guard of getTempRisk: a truthy string whose upper-cased form is
    one of the recognized invalid tokens. -/
def tempTokenHit : TempInput → Bool
  | TempInput.str s => decide (s ≠ [] ∧ s.map upChar ∈ tempInvalidTokens)
  | _ => false

/-- The decimal constant 99.5 of the source. -/
def t995 : DecVal := ⟨995, 1⟩

/-- The decimal constant 99.6 of the source. -/
def t996 : DecVal := ⟨996, 1⟩

/-- The decimal constant 100.9 of the source. -/
def t1009 : DecVal := ⟨1009, 1⟩

/-- The decimal constant 101.0 of the source. -/
def t1010 : DecVal := ⟨1010, 1⟩

/-- getTempRisk from src/riskScoring.js (lines 64-83). -/
def getTempRisk (temp : TempInput) : RiskComponent :=
  if tempTokenHit temp then ⟨0, true⟩
  else
    match parseFloatJs temp with
    | none => ⟨0, true⟩
    | some v =>
      if temp = TempInput.missing ∨ temp = TempInput.str [] then ⟨0, true⟩
      else if DecVal.le v t995 then ⟨0, false⟩
      else if DecVal.le t996 v && DecVal.le v t1009 then ⟨1, false⟩
      else if DecVal.le t1010 v then ⟨2, false⟩
      else ⟨0, false⟩

/-- The fever test of processPatients (lines 190-192): re-parse the raw
    temperature and compare against 99.6, independently of getTempRisk. -/
def feverTest (temp : TempInput) : Bool :=
  match parseFloatJs temp with
  | none => false
  | some v => DecVal.le t996 v

/-- Invalid-token set of parseBP (matched against the upper-cased whole
    string). -/
def bpInvalidTokens : List JsStr :=
  [['I','N','V','A','L','I','D'], ['N','/','A'], ['N','U','L','L'],
   ['U','N','D','E','F','I','N','E','D'], ['E','R','R','O','R']]

/-- parseBP from src/riskScoring.js (lines 5-23).  The input is none for an
    absent or non-string field; the result is none for the source's null. -/
def parseBP (bp : Option JsStr) : Option (Nat × Nat) :=
  match bp with
  | none => none
  | some s =>
    if s = [] then none
    else if s.map upChar ∈ bpInvalidTokens then none
    else
      let d1 := s.takeWhile isDigitCh
      match s.dropWhile isDigitCh with
      | '/' :: r2 =>
        if d1 ≠ [] ∧ r2 ≠ [] ∧ r2.all isDigitCh then some (digitsVal d1, digitsVal r2)
        else none
      | _ => none

/-- The first getBPRisk definition of the source (lines 29-58; scores 1-4,
    normal band checked first).  In JavaScript the later declaration of the
    same name shadows this one, so it is never the effective definition; it
    is embedded to document the duplicated-definition conflict. -/
def getBPRisk_first (bp : Option JsStr) : RiskComponent :=
  match parseBP bp with
  | none => ⟨0, true⟩
  | some (systolic, diastolic) =>
    if systolic < 120 ∧ diastolic < 80 then ⟨1, false⟩
    else if 120 ≤ systolic ∧ systolic ≤ 129 ∧ diastolic < 80 then ⟨2, false⟩
    else if (130 ≤ systolic ∧ systolic ≤ 139) ∨ (80 ≤ diastolic ∧ diastolic ≤ 89) then ⟨3, false⟩
    else if 140 ≤ systolic ∨ 90 ≤ diastolic then ⟨4, false⟩
    else ⟨1, false⟩

/-- The effective getBPRisk: the later definition (lines 89-119 of
    src/riskScoring.js), which shadows the earlier one and is the one
    processPatients calls. -/
def getBPRisk (bp : Option JsStr) : RiskComponent :=
  match parseBP bp with
  | none => ⟨0, true⟩
  | some (systolic, diastolic) =>
    if 140 ≤ systolic ∨ 90 ≤ diastolic then ⟨3, false⟩
    else if (130 ≤ systolic ∧ systolic ≤ 139) ∨ (80 ≤ diastolic ∧ diastolic ≤ 89) then ⟨2, false⟩
    else if 120 ≤ systolic ∧ systolic ≤ 129 ∧ diastolic < 80 then ⟨1, false⟩
    else if systolic < 120 ∧ diastolic < 80 then ⟨0, false⟩
    else ⟨0, false⟩

/-- The priority-ordered blood-pressure table in the words of spec section
    4.2, for comparison with the effective getBPRisk: the score of the first
    matching rule, none when no rule matches. -/
def bpRiskSpec (systolic diastolic : Nat) : Option Nat :=
  if 140 ≤ systolic ∨ 90 ≤ diastolic then some 3
  else if (130 ≤ systolic ∧ systolic ≤ 139) ∨ (80 ≤ diastolic ∧ diastolic ≤ 89) then some 2
  else if (120 ≤ systolic ∧ systolic ≤ 129) ∧ diastolic < 80 then some 1
  else if systolic < 120 ∧ diastolic < 80 then some 0
  else none

/-- The raw age field of a record: absent, a number, or a string. -/
inductive AgeInput
  | missing
  | num (i : Int)
  | str (s : JsStr)
deriving DecidableEq

/-- Invalid-token set of getAgeRisk (matched as substrings of the upper-cased
    string: the source regex has no anchors). -/
def ageInvalidTokens : List JsStr :=
  [['U','N','K','N','O','W','N'], ['I','N','V','A','L','I','D'],
   ['E','R','R','O','R'], ['N','A'], ['N','U','L','L'],
   ['U','N','D','E','F','I','N','E','D']]

/-- Does t occur at the start of l? -/
def startsWith : JsStr → JsStr → Bool
  | [], _ => true
  | _ :: _, [] => false
  | a :: as, b :: bs => a == b && startsWith as bs

/-- Does t occur anywhere inside l? -/
def hasSubstr (t : JsStr) : JsStr → Bool
  | [] => startsWith t []
  | c :: cs => startsWith t (c :: cs) || hasSubstr t cs

/-- JavaScript String.prototype.trim, for the ASCII whitespace this data
    contains. -/
def trimWs (s : JsStr) : JsStr :=
  (((s.dropWhile isWsCh).reverse).dropWhile isWsCh).reverse

/-- The shared tail of getAgeRisk: the parseInt result check (NaN or value
    at most 0 is invalid) followed by the age bands. -/
def ageBands (ageNum : Int) : RiskComponent :=
  if ageNum ≤ 0 then ⟨0, true⟩
  else if 65 < ageNum then ⟨2, false⟩
  else if 40 ≤ ageNum ∧ ageNum ≤ 65 then ⟨1, false⟩
  else if ageNum < 40 then ⟨0, false⟩
  else ⟨0, false⟩

/-- getAgeRisk from src/riskScoring.js (lines 125-163). -/
def getAgeRisk (age : AgeInput) : RiskComponent :=
  match age with
  | AgeInput.str s =>
    if s ≠ [] then
      if ageInvalidTokens.any (fun t => hasSubstr t (s.map upChar)) then ⟨0, true⟩
      else if ¬ (trimWs s ≠ [] ∧ (trimWs s).all isDigitCh) then ⟨0, true⟩
      else ageBands (Int.ofNat (digitsVal (trimWs s)))
    else ⟨0, true⟩
  | AgeInput.missing => ⟨0, true⟩
  | AgeInput.num i => ageBands i

/-- A raw patient record.  patient_id is none when absent; some [] models the
    empty string; both are falsy in the guard of processPatients. -/
structure Patient where
  patient_id : Option JsStr
  blood_pressure : Option JsStr
  temperature : TempInput
  age : AgeInput
deriving DecidableEq

/-- Truthiness of patient.patient_id. -/
def idOk (p : Patient) : Bool :=
  match p.patient_id with
  | none => false
  | some l => !l.isEmpty

/-- The id pushed onto the alert lists. -/
def pid (p : Patient) : JsStr := p.patient_id.getD []

/-- totalScore as computed in processPatients (line 182). -/
def totalScore (p : Patient) : Nat :=
  (getBPRisk p.blood_pressure).score + (getTempRisk p.temperature).score
    + (getAgeRisk p.age).score

/-- Does any of the three components flag an issue (line 196)? -/
def hasAnyIssue (p : Patient) : Bool :=
  (getBPRisk p.blood_pressure).hasIssue || (getTempRisk p.temperature).hasIssue
    || (getAgeRisk p.age).hasIssue

/-- The three alert lists returned by processPatients. -/
structure AssessmentResult where
  high_risk_patients : List JsStr
  fever_patients : List JsStr
  data_quality_issues : List JsStr
deriving DecidableEq

/-- One forEach iteration of processPatients (lines 175-199): a null record
    or a record with a falsy patient_id is skipped; otherwise the id is
    appended to each list whose condition holds. -/
def procStep (acc : AssessmentResult) (op : Option Patient) : AssessmentResult :=
  match op with
  | none => acc
  | some p =>
    if idOk p then
      { high_risk_patients :=
          acc.high_risk_patients ++ (if 4 ≤ totalScore p then [pid p] else []),
        fever_patients :=
          acc.fever_patients ++ (if feverTest p.temperature then [pid p] else []),
        data_quality_issues :=
          acc.data_quality_issues ++ (if hasAnyIssue p then [pid p] else []) }
    else acc

/-- processPatients from src/riskScoring.js (lines 168-210). -/
def processPatients (ps : List (Option Patient)) : AssessmentResult :=
  ps.foldl procStep ⟨[], [], []⟩

/-- Characterization helper in the spec's words: the ids, in record order, of
    the non-null records with a truthy id that satisfy a per-record
    condition. -/
def idsWhere (sel : Patient → Bool) : List (Option Patient) → List JsStr
  | [] => []
  | none :: ps => idsWhere sel ps
  | some p :: ps => (if idOk p && sel p then [pid p] else []) ++ idsWhere sel ps

/-- Outcome of one axios call inside makeRequest: a successful payload, or an
    error carrying an optional HTTP status (none models a network error with
    no response object). -/
inductive Outcome
  | success (payload : Nat)
  | failure (status : Option Nat)
deriving DecidableEq

/-- Terminal result of a makeRequest run.  fuelOut marks that the supplied
    outcome list was exhausted while the loop still wanted another call. -/
inductive ReqResult
  | ok (payload : Nat)
  | failed
  | fuelOut
deriving DecidableEq

/-- Statistics of one makeRequest run: the result, the number of axios calls
    made, the number of retries taken through the 429 branch, and the number
    of increments of the general attempt counter. -/
structure RunStats where
  result : ReqResult
  calls : Nat
  rlRetries : Nat
  genRetries : Nat
deriving DecidableEq

/-- Account for the call consumed before a 429 retry. -/
def withCallRL (r : RunStats) : RunStats :=
  ⟨r.result, r.calls + 1, r.rlRetries + 1, r.genRetries⟩

/-- Account for the call consumed before a general retry. -/
def withCallGen (r : RunStats) : RunStats :=
  ⟨r.result, r.calls + 1, r.rlRetries, r.genRetries + 1⟩

/-- The while loop of makeRequest (src/apiClient.js lines 26-84), one list
    element per axios call.  attempt and rl are the two counters; mR and mRLR
    are maxRetries and maxRateLimitRetries.  The branch order matches the
    source: 429 first; the rate-limit counter resets to 0 on every other
    error; then 500/502/503; then the attempt-exhausted throw; then the
    immediate throw for any other present status; otherwise a general retry. -/
def mrGo (mR mRLR : Nat) (attempt rl : Nat) (outs : List Outcome) : RunStats :=
  if attempt ≤ mR ∨ (0 < rl ∧ rl < mRLR) then
    match outs with
    | [] => ⟨ReqResult.fuelOut, 0, 0, 0⟩
    | Outcome.success p :: _ => ⟨ReqResult.ok p, 1, 0, 0⟩
    | Outcome.failure st :: rest =>
      if st = some 429 then
        if rl + 1 ≤ mRLR then withCallRL (mrGo mR mRLR attempt (rl + 1) rest)
        else ⟨ReqResult.failed, 1, 0, 0⟩
      else if st = some 500 ∨ st = some 502 ∨ st = some 503 then
        if attempt < mR then withCallGen (mrGo mR mRLR (attempt + 1) 0 rest)
        else ⟨ReqResult.failed, 1, 0, 0⟩
      else if mR ≤ attempt then ⟨ReqResult.failed, 1, 0, 0⟩
      else if st.isSome then ⟨ReqResult.failed, 1, 0, 0⟩
      else withCallGen (mrGo mR mRLR (attempt + 1) 0 rest)
  else ⟨ReqResult.failed, 0, 0, 0⟩

/-- makeRequest with explicit bounds: attempt starts at 1 and the rate-limit
    counter at 0, as in the source. -/
def makeRequestFull (mR mRLR : Nat) (outs : List Outcome) : RunStats :=
  mrGo mR mRLR 1 0 outs

/-- makeRequest with the source default maxRateLimitRetries = 8. -/
def makeRequest (mR : Nat) (outs : List Outcome) : RunStats :=
  makeRequestFull mR 8 outs

/-- The body of one page response as fetchAllPatients classifies it: falsy,
    one of the three recognized envelope shapes, or an unrecognized truthy
    value.  Records are abstracted to numbers; their content is irrelevant to
    the fetch loop. -/
inductive FetchData
  | falsy
  | envData (l : List Nat)
  | envPatients (l : List Nat)
  | bareArray (l : List Nat)
  | unrecognized
deriving DecidableEq

/-- Result of one makeRequest call inside the pagination loop: a terminal
    throw, or a returned body. -/
inductive PageResp
  | err
  | ret (d : FetchData)
deriving DecidableEq

/-- The ordered envelope-shape matchers of fetchAllPatients (lines 114-122). -/
def extractPatients : FetchData → Option (List Nat)
  | FetchData.envData l => some l
  | FetchData.envPatients l => some l
  | FetchData.bareArray l => some l
  | FetchData.falsy => none
  | FetchData.unrecognized => none

/-- Result of a fetchAllPatients run: the accumulated records, the page
    numbers requested in order, and whether the loop exited normally
    (finished = false means the supplied responses ran out with hasMore still
    true). -/
structure FetchRun where
  records : List Nat
  pages : List Nat
  finished : Bool
deriving DecidableEq

/-- Prepend the page number of the current iteration to a continued run. -/
def consPage (page : Nat) (res : FetchRun) : FetchRun :=
  ⟨res.records, page :: res.pages, res.finished⟩

/-- The while loop of fetchAllPatients (src/apiClient.js lines 100-150), one
    list element per page request.  A thrown page failure advances to the
    next page and stops only when the incremented page counter passes 15; a
    falsy body advances with no ceiling check; a recognized non-empty page is
    appended and the loop continues only when the page was full (5 records);
    an empty or unrecognized body ends the loop. -/
def fetchGo (page : Nat) (acc : List Nat) (rs : List PageResp) : FetchRun :=
  match rs with
  | [] => ⟨acc, [], false⟩
  | r :: rest =>
    match r with
    | PageResp.err =>
      if 15 < page + 1 then ⟨acc, [page], true⟩
      else consPage page (fetchGo (page + 1) acc rest)
    | PageResp.ret FetchData.falsy => consPage page (fetchGo (page + 1) acc rest)
    | PageResp.ret d =>
      match extractPatients d with
      | none => ⟨acc, [page], true⟩
      | some l =>
        if l.isEmpty then ⟨acc, [page], true⟩
        else if 5 ≤ l.length then consPage page (fetchGo (page + 1) (acc ++ l) rest)
        else ⟨acc ++ l, [page], true⟩

/-- fetchAllPatients: the loop starts at page 1 with no records. -/
def fetchAllPatients (rs : List PageResp) : FetchRun := fetchGo 1 [] rs

/-- The records a page response contributes to the returned list: the
    recognized array, or nothing for a failed, falsy or unrecognized page. -/
def pageContribution : PageResp → List Nat
  | PageResp.err => []
  | PageResp.ret d => (extractPatients d).getD []

/-- A concrete record used by witnesses. -/
def pEx : Patient :=
  ⟨some ['p','1'], some ['1','4','5','/','9','5'],
   TempInput.str ['9','9','.','9'], AgeInput.num 70⟩

/-- The trace refuting C4: one 429, then a 500 (which resets the rate-limit
    counter), then eight more 429s, then a success. -/
def c4Trace : List Outcome :=
  [Outcome.failure (some 429), Outcome.failure (some 500)]
    ++ List.replicate 8 (Outcome.failure (some 429)) ++ [Outcome.success 5]

/-- A full page of five records, used by the C3 counterexample. -/
def fullPage : PageResp := PageResp.ret (FetchData.envData [0, 1, 2, 3, 4])

/-! ## Claim theorems -/

/-- C1: for every blood-pressure input, the effective getBPRisk (the later of
    the two duplicated definitions, which shadows the earlier one) returns
    score 0 with the invalid flag when parseBP rejects the input, and
    otherwise returns the score of the first matching rule of the fixed
    priority table of spec section 4.2 (with no issue flagged); the table's
    fourth rule always matches when the first three do not. -/
theorem getBPRisk_matches_priority_table (bp : Option JsStr) :
    (parseBP bp = none → getBPRisk bp = ⟨0, true⟩)
    ∧ (∀ s d, parseBP bp = some (s, d) →
        bpRiskSpec s d = some (getBPRisk bp).score ∧ (getBPRisk bp).hasIssue = false) := by
  constructor
  · intro h
    simp [getBPRisk, h]
  · intro s d h
    simp only [getBPRisk, h]
    unfold bpRiskSpec
    split_ifs <;> simp_all <;> omega

/-- Witness for C1 at the concrete input "145/95". -/
theorem getBPRisk_matches_priority_table_witness :
    bpRiskSpec 145 95 = some (getBPRisk (some ['1','4','5','/','9','5'])).score
    ∧ (getBPRisk (some ['1','4','5','/','9','5'])).hasIssue = false :=
  (getBPRisk_matches_priority_table (some ['1','4','5','/','9','5'])).2 145 95 (by decide)

/-- C8: getAgeRisk is monotone non-decreasing over valid (positive) ages, and
    the boundary ages 39, 40, 65, 66 score 0, 1, 1, 2, all validly. -/
theorem getAgeRisk_monotone_and_boundaries :
    (∀ i1 i2 : Int, 0 < i1 → i1 ≤ i2 →
        (getAgeRisk (AgeInput.num i1)).score ≤ (getAgeRisk (AgeInput.num i2)).score)
    ∧ getAgeRisk (AgeInput.num 39) = ⟨0, false⟩
    ∧ getAgeRisk (AgeInput.num 40) = ⟨1, false⟩
    ∧ getAgeRisk (AgeInput.num 65) = ⟨1, false⟩
    ∧ getAgeRisk (AgeInput.num 66) = ⟨2, false⟩ := by
  refine ⟨?_, by decide, by decide, by decide, by decide⟩
  intro i1 i2 h1 h12
  simp only [getAgeRisk, ageBands]
  split_ifs <;> simp <;> omega

/-- Witness for C8: monotonicity applied at the concrete valid ages 40, 66. -/
theorem getAgeRisk_monotone_and_boundaries_witness :
    (getAgeRisk (AgeInput.num 40)).score ≤ (getAgeRisk (AgeInput.num 66)).score :=
  getAgeRisk_monotone_and_boundaries.1 40 66 (by decide) (by decide)

/-- Components of one processPatients iteration: the step appends to each
    list exactly the contribution that idsWhere attributes to the record. -/
theorem procStep_components (acc : AssessmentResult) (op : Option Patient) :
    (procStep acc op).high_risk_patients
        = acc.high_risk_patients ++ idsWhere (fun q => decide (4 ≤ totalScore q)) [op]
    ∧ (procStep acc op).fever_patients
        = acc.fever_patients ++ idsWhere (fun q => feverTest q.temperature) [op]
    ∧ (procStep acc op).data_quality_issues
        = acc.data_quality_issues ++ idsWhere (fun q => hasAnyIssue q) [op] := by
  cases op with
  | none => simp [procStep, idsWhere]
  | some p =>
    cases hid : idOk p with
    | false => simp [procStep, hid, idsWhere]
    | true => simp [procStep, hid, idsWhere]

/-- idsWhere distributes over cons. -/
theorem idsWhere_cons (sel : Patient → Bool) (op : Option Patient)
    (ps : List (Option Patient)) :
    idsWhere sel (op :: ps) = idsWhere sel [op] ++ idsWhere sel ps := by
  cases op <;> simp [idsWhere]

/-- The fold of processPatients builds each alert list as the accumulator
    followed by the per-record contributions in order. -/
theorem foldl_procStep_characterization (ps : List (Option Patient)) : ∀ acc,
    (List.foldl procStep acc ps).high_risk_patients
        = acc.high_risk_patients ++ idsWhere (fun q => decide (4 ≤ totalScore q)) ps
    ∧ (List.foldl procStep acc ps).fever_patients
        = acc.fever_patients ++ idsWhere (fun q => feverTest q.temperature) ps
    ∧ (List.foldl procStep acc ps).data_quality_issues
        = acc.data_quality_issues ++ idsWhere (fun q => hasAnyIssue q) ps := by
  induction ps with
  | nil =>
    intro acc
    simp only [List.foldl_nil, idsWhere, List.append_nil]
    exact ⟨trivial, trivial, trivial⟩
  | cons op ps ih =>
    intro acc
    obtain ⟨e1, e2, e3⟩ := ih (procStep acc op)
    obtain ⟨s1, s2, s3⟩ := procStep_components acc op
    rw [List.foldl_cons] at *
    refine ⟨?_, ?_, ?_⟩
    · rw [e1, s1, idsWhere_cons _ op ps, List.append_assoc]
    · rw [e2, s2, idsWhere_cons _ op ps, List.append_assoc]
    · rw [e3, s3, idsWhere_cons _ op ps, List.append_assoc]

/-- The effective blood-pressure score never exceeds 3. -/
theorem getBPRisk_score_le (bp : Option JsStr) : (getBPRisk bp).score ≤ 3 := by
  unfold getBPRisk
  rcases parseBP bp with _ | ⟨s, d⟩
  · simp
  · dsimp only
    split_ifs <;> simp

/-- The temperature score never exceeds 2. -/
theorem getTempRisk_score_le (t : TempInput) : (getTempRisk t).score ≤ 2 := by
  unfold getTempRisk
  split
  · simp
  · rcases parseFloatJs t with _ | v
    · simp
    · dsimp only
      split_ifs <;> simp

/-- The age-band score never exceeds 2. -/
theorem ageBands_score_le (i : Int) : (ageBands i).score ≤ 2 := by
  unfold ageBands
  split_ifs <;> simp

/-- The age score never exceeds 2. -/
theorem getAgeRisk_score_le (a : AgeInput) : (getAgeRisk a).score ≤ 2 := by
  cases a with
  | missing => simp [getAgeRisk]
  | num i => simpa [getAgeRisk] using ageBands_score_le i
  | str s =>
    simp only [getAgeRisk]
    split_ifs <;> first | exact ageBands_score_le _ | simp

/-- C5: a record with a truthy patient_id lands in the fever list exactly
    when its raw temperature field parses as a plain number whose value is at
    least 99.6, independently of the validated-field result of getTempRisk:
    the fever list is precisely the ids of the records passing the raw
    re-parse test, and that test holds exactly when parseFloat succeeds with
    a value of at least 99.6. -/
theorem fever_list_iff_raw_parse (ps : List (Option Patient)) :
    (processPatients ps).fever_patients
        = idsWhere (fun q => feverTest q.temperature) ps
    ∧ (∀ t : TempInput,
        feverTest t = true ↔ ∃ v, parseFloatJs t = some v ∧ DecVal.le t996 v = true) := by
  constructor
  · simpa [processPatients] using (foldl_procStep_characterization ps ⟨[], [], []⟩).2.1
  · intro t
    rcases h : parseFloatJs t with _ | v <;> simp [feverTest, h]

/-- C6: totalScore is the sum of the three component scores, lies in [0, 7],
    and the high-risk list contains exactly the ids of the records whose
    totalScore is at least 4. -/
theorem totalScore_range_and_high_risk (ps : List (Option Patient)) (p : Patient) :
    totalScore p = (getBPRisk p.blood_pressure).score + (getTempRisk p.temperature).score
        + (getAgeRisk p.age).score
    ∧ totalScore p ≤ 7
    ∧ (processPatients ps).high_risk_patients
        = idsWhere (fun q => decide (4 ≤ totalScore q)) ps := by
  refine ⟨rfl, ?_, ?_⟩
  · have h1 := getBPRisk_score_le p.blood_pressure
    have h2 := getTempRisk_score_le p.temperature
    have h3 := getAgeRisk_score_le p.age
    unfold totalScore
    omega
  · simpa [processPatients] using (foldl_procStep_characterization ps ⟨[], [], []⟩).1

/-- C9: a null record, or a record whose patient_id is absent or falsy,
    contributes nothing to the output and leaves the processing of every
    other record unchanged: deleting it from the input yields the same
    result. -/
theorem null_or_falsy_id_record_skipped (r : Option Patient)
    (pre post : List (Option Patient))
    (h : ∀ p, r = some p → idOk p = false) :
    processPatients (pre ++ r :: post) = processPatients (pre ++ post) := by
  have hstep : ∀ acc, procStep acc r = acc := by
    intro acc
    cases r with
    | none => rfl
    | some p => simp [procStep, h p rfl]
  unfold processPatients
  rw [List.foldl_append, List.foldl_append, List.foldl_cons, hstep]


/-- Witness for C9: a null record after a real one changes nothing. -/
theorem null_or_falsy_id_record_skipped_witness :
    processPatients [some pEx, none] = processPatients [some pEx] :=
  null_or_falsy_id_record_skipped none [some pEx] [] (fun _ hp => nomatch hp)

/-- C2 counterexample: with maxRetries 3, a 404 on the very first attempt
    (so attempt 1 < 3) fails terminally after that single call; the pending
    success is never consumed, refuting the claim that any non-429,
    non-500/502/503 status is retried while attempt < maxRetries. -/
theorem makeRequest_404_immediate :
    makeRequest 3 [Outcome.failure (some 404), Outcome.success 7]
        = ⟨ReqResult.failed, 1, 0, 0⟩
    ∧ (makeRequest 3 [Outcome.failure (some 404), Outcome.success 7]).result
        ≠ ReqResult.ok 7
    ∧ 1 < 3 := by decide

/-- C2 (amended): in a live iteration (attempt at most maxRetries), an error
    whose status is none (network error) fails terminally when attempt has
    reached maxRetries and otherwise retries with attempt incremented and the
    rate-limit counter reset; an error carrying any other status besides 429
    and 500/502/503 fails terminally immediately, whatever attempt is. -/
theorem makeRequest_other_error_behaviour (mR mRLR attempt rl : Nat) (st : Option Nat)
    (outs : List Outcome) (hA : attempt ≤ mR) (h429 : st ≠ some 429)
    (h500 : st ≠ some 500) (h502 : st ≠ some 502) (h503 : st ≠ some 503) :
    (st = none →
      (mR ≤ attempt →
        mrGo mR mRLR attempt rl (Outcome.failure st :: outs) = ⟨ReqResult.failed, 1, 0, 0⟩)
      ∧ (attempt < mR →
        mrGo mR mRLR attempt rl (Outcome.failure st :: outs)
          = withCallGen (mrGo mR mRLR (attempt + 1) 0 outs)))
    ∧ (st.isSome →
        mrGo mR mRLR attempt rl (Outcome.failure st :: outs) = ⟨ReqResult.failed, 1, 0, 0⟩) := by
  constructor
  · rintro rfl
    constructor
    · intro hge
      rw [mrGo]
      simp [hA, hge, Nat.not_lt.mpr hge]
    · intro hlt
      rw [mrGo]
      simp [hA, Nat.not_le.mpr hlt]
  · intro hsome
    rcases st with _ | k
    · simp at hsome
    · rw [mrGo]
      have hk0 : k ≠ 429 := by simpa using h429
      have hk1 : k ≠ 500 := by simpa using h500
      have hk2 : k ≠ 502 := by simpa using h502
      have hk3 : k ≠ 503 := by simpa using h503
      by_cases hke : mR ≤ attempt
      · simp [hA, hk0, hk1, hk2, hk3, hke, Nat.not_lt.mpr hke]
      · simp [hA, hk0, hk1, hk2, hk3, hke]

/-- Witness for C2: a network error at attempt 1 with maxRetries 3 retries
    with attempt incremented. -/
theorem makeRequest_other_error_behaviour_witness :
    mrGo 3 8 1 0 [Outcome.failure none] = withCallGen (mrGo 3 8 2 0 []) :=
  ((makeRequest_other_error_behaviour 3 8 1 0 none [] (by decide) (by decide)
      (by decide) (by decide) (by decide)).1 rfl).2 (by decide)

/-- The general attempt counter accounts for every general retry: a run
    started at a given attempt value performs at most mR - attempt general
    retries. -/
theorem mrGo_genRetries_le (mR mRLR : Nat) (outs : List Outcome) : ∀ attempt rl,
    (mrGo mR mRLR attempt rl outs).genRetries ≤ mR - attempt := by
  induction outs with
  | nil =>
    intro attempt rl
    rw [mrGo]
    split <;> simp
  | cons o rest ih =>
    intro attempt rl
    cases o with
    | success p =>
      rw [mrGo]
      split <;> simp
    | failure st =>
      rw [mrGo]
      split
      case isFalse => simp
      case isTrue =>
        split_ifs with h1 h2 h3 h4 h5 h6
        · have := ih attempt (rl + 1)
          simp [withCallRL]
          omega
        · simp
        · have := ih (attempt + 1) 0
          simp [withCallGen]
          omega
        · simp
        · simp
        · simp
        · have := ih (attempt + 1) 0
          simp [withCallGen]
          omega

/-- Over a run of consecutive 429 outcomes, the rate-limit retries are
    bounded by the remaining rate-limit budget. -/
theorem mrGo_rl_consecutive (mR mRLR : Nat) (outs : List Outcome) : ∀ attempt rl,
    (∀ o ∈ outs, o = Outcome.failure (some 429)) →
    (mrGo mR mRLR attempt rl outs).rlRetries ≤ mRLR - rl := by
  induction outs with
  | nil =>
    intro attempt rl _
    rw [mrGo]
    split <;> simp
  | cons o rest ih =>
    intro attempt rl hall
    have ho : o = Outcome.failure (some 429) := hall o (by simp)
    subst ho
    rw [mrGo]
    split
    · simp only [reduceIte]
      split_ifs with h1
      · have := ih attempt (rl + 1) (fun o ho => hall o (by simp [ho]))
        simp [withCallRL]
        omega
      · simp
    · simp


/-- C4 counterexample: with the default bounds (maxRetries 3,
    maxRateLimitRetries 8) the run on c4Trace completes successfully after
    performing 9 rate-limit retries, exceeding maxRateLimitRetries, because
    the rate-limit counter resets on the interleaved 500. -/
theorem makeRequest_nine_rl_retries :
    makeRequest 3 c4Trace = ⟨ReqResult.ok 5, 11, 9, 1⟩ ∧ 8 < 9 := by decide

/-- C4 (amended): for a single logical request, the general-attempt budget is
    respected (the initial attempt plus all general retries never exceed
    maxRetries) and at most maxRateLimitRetries consecutive rate-limit
    retries are performed (the counter resets on any non-429 error, so the
    total across the request may exceed the bound); a 429 followed by a
    success completes successfully with one rate-limit retry and no general
    retry consumed. -/
theorem makeRequest_budget_invariants (mR mRLR : Nat) (h1 : 1 ≤ mR) :
    (∀ outs : List Outcome, (makeRequestFull mR mRLR outs).genRetries + 1 ≤ mR)
    ∧ (∀ outs : List Outcome, (∀ o ∈ outs, o = Outcome.failure (some 429)) →
        (makeRequestFull mR mRLR outs).rlRetries ≤ mRLR)
    ∧ (∀ p : Nat, 1 ≤ mRLR →
        makeRequestFull mR mRLR [Outcome.failure (some 429), Outcome.success p]
          = ⟨ReqResult.ok p, 2, 1, 0⟩) := by
  refine ⟨?_, ?_, ?_⟩
  · intro outs
    have := mrGo_genRetries_le mR mRLR outs 1 0
    unfold makeRequestFull
    omega
  · intro outs hall
    have := mrGo_rl_consecutive mR mRLR outs 1 0 hall
    unfold makeRequestFull
    omega
  · intro p hm
    unfold makeRequestFull
    rw [mrGo]
    rw [if_pos (Or.inl h1)]
    simp only [reduceIte]
    rw [if_pos (by omega : 0 + 1 ≤ mRLR)]
    rw [mrGo]
    rw [if_pos (Or.inl h1)]
    rfl

/-- Witness for C4 at the default bounds. -/
theorem makeRequest_budget_invariants_witness :
    makeRequestFull 3 8 [Outcome.failure (some 429), Outcome.success 5]
      = ⟨ReqResult.ok 5, 2, 1, 0⟩ :=
  (makeRequest_budget_invariants 3 8 (by decide)).2.2 5 (by decide)


/-- C3 counterexample: given sixteen full pages, the loop requests page 16,
    beyond the claimed hard ceiling of 15, and is still not finished after
    consuming every supplied response (so no execution bound comes from the
    ceiling on this path). -/
theorem fetchAllPatients_requests_page_16 :
    16 ∈ (fetchAllPatients (List.replicate 16 fullPage)).pages
    ∧ (fetchAllPatients (List.replicate 16 fullPage)).finished = false := by decide

/-- C3 (amended): the loop stops as soon as a page yields zero records or
    fewer than the page size of 5, and the hard ceiling of 15 bounds the page
    counter only on the failure path: in a run in which every page request
    fails, no page beyond 15 is ever requested. -/
theorem fetchAllPatients_stop_and_err_ceiling :
    (∀ page acc d rest l, extractPatients d = some l → l.length < 5 →
        fetchGo page acc (PageResp.ret d :: rest) = ⟨acc ++ l, [page], true⟩)
    ∧ (∀ rs page acc, (∀ r ∈ rs, r = PageResp.err) → page ≤ 15 →
        ∀ q ∈ (fetchGo page acc rs).pages, q ≤ 15) := by
  constructor
  · intro page acc d rest l hx hlen
    cases d with
    | falsy => simp [extractPatients] at hx
    | unrecognized => simp [extractPatients] at hx
    | envData m =>
      simp [extractPatients] at hx
      subst hx
      cases m with
      | nil => simp [fetchGo, extractPatients]
      | cons a t =>
        have hl : ¬ 4 ≤ t.length := by
          simp only [List.length_cons] at hlen
          omega
        simp [fetchGo, extractPatients, hl]
    | envPatients m =>
      simp [extractPatients] at hx
      subst hx
      cases m with
      | nil => simp [fetchGo, extractPatients]
      | cons a t =>
        have hl : ¬ 4 ≤ t.length := by
          simp only [List.length_cons] at hlen
          omega
        simp [fetchGo, extractPatients, hl]
    | bareArray m =>
      simp [extractPatients] at hx
      subst hx
      cases m with
      | nil => simp [fetchGo, extractPatients]
      | cons a t =>
        have hl : ¬ 4 ≤ t.length := by
          simp only [List.length_cons] at hlen
          omega
        simp [fetchGo, extractPatients, hl]
  · intro rs
    induction rs with
    | nil =>
      intro page acc _ _ q hq
      simp [fetchGo] at hq
    | cons r rest ih =>
      intro page acc hall hpage q hq
      have hr : r = PageResp.err := hall r (by simp)
      subst hr
      rw [fetchGo] at hq
      by_cases hc : 15 < page + 1
      · rw [if_pos hc] at hq
        simp at hq
        omega
      · rw [if_neg hc] at hq
        simp only [consPage, List.mem_cons] at hq
        rcases hq with hq | hq
        · omega
        · exact ih (page + 1) acc (fun r hr => hall r (by simp [hr])) (by omega) q hq

/-- Witness for C3 (amended): a single short page stops the loop, and an
    all-failure run keeps every requested page within the ceiling. -/
theorem fetchAllPatients_stop_and_err_ceiling_witness :
    fetchGo 1 [] [PageResp.ret (FetchData.envData [7])] = ⟨[7], [1], true⟩
    ∧ ∀ q ∈ (fetchGo 1 [] [PageResp.err]).pages, q ≤ 15 :=
  ⟨fetchAllPatients_stop_and_err_ceiling.1 1 [] (FetchData.envData [7]) [] [7]
      rfl (by decide),
   fetchAllPatients_stop_and_err_ceiling.2 [PageResp.err] 1 []
      (by intro r hr; simpa using hr) (by decide)⟩

/-- Every fetchGo run returns the accumulator followed by the joined
    contributions of exactly the consumed responses, and requests
    consecutively numbered pages starting from its initial page. -/
theorem fetchGo_concat_pages (rs : List PageResp) : ∀ page acc,
    (fetchGo page acc rs).records
        = acc ++ ((rs.take (fetchGo page acc rs).pages.length).map pageContribution).flatten
    ∧ (fetchGo page acc rs).pages
        = List.range' page (fetchGo page acc rs).pages.length := by
  induction rs with
  | nil =>
    intro page acc
    simp [fetchGo]
  | cons r rest ih =>
    intro page acc
    cases r with
    | err =>
      by_cases hc : 15 < page + 1
      · simp [fetchGo, hc, pageContribution, List.range']
      · obtain ⟨ihr, ihp⟩ := ih (page + 1) acc
        simp only [fetchGo, hc, reduceIte, consPage, List.length_cons, List.take_succ_cons,
          List.map_cons, List.flatten_cons, pageContribution, List.nil_append, List.range'_succ]
        exact ⟨ihr, by rw [ihp, List.length_range']⟩
    | ret d =>
      cases d with
      | falsy =>
        obtain ⟨ihr, ihp⟩ := ih (page + 1) acc
        simp only [fetchGo, consPage, List.length_cons, List.take_succ_cons,
          List.map_cons, List.flatten_cons, pageContribution, extractPatients, Option.getD_none,
          List.nil_append, List.range'_succ]
        exact ⟨ihr, by rw [ihp, List.length_range']⟩
      | unrecognized =>
        simp [fetchGo, extractPatients, pageContribution, List.range']
      | envData m =>
        by_cases hm : m = []
        · subst hm
          simp [fetchGo, extractPatients, pageContribution, List.range']
        · by_cases h5 : 5 ≤ m.length
          · obtain ⟨ihr, ihp⟩ := ih (page + 1) (acc ++ m)
            simp only [fetchGo, extractPatients, List.isEmpty_iff, hm, reduceIte, h5,
              consPage, List.length_cons, List.take_succ_cons, List.map_cons, List.flatten_cons,
              Option.getD_some, pageContribution, List.range'_succ]
            refine ⟨?_, by rw [ihp, List.length_range']⟩
            rw [ihr, List.append_assoc]
          · simp [fetchGo, extractPatients, List.isEmpty_iff, hm, h5,
              pageContribution, List.range']
      | envPatients m =>
        by_cases hm : m = []
        · subst hm
          simp [fetchGo, extractPatients, pageContribution, List.range']
        · by_cases h5 : 5 ≤ m.length
          · obtain ⟨ihr, ihp⟩ := ih (page + 1) (acc ++ m)
            simp only [fetchGo, extractPatients, List.isEmpty_iff, hm, reduceIte, h5,
              consPage, List.length_cons, List.take_succ_cons, List.map_cons, List.flatten_cons,
              Option.getD_some, pageContribution, List.range'_succ]
            refine ⟨?_, by rw [ihp, List.length_range']⟩
            rw [ihr, List.append_assoc]
          · simp [fetchGo, extractPatients, List.isEmpty_iff, hm, h5,
              pageContribution, List.range']
      | bareArray m =>
        by_cases hm : m = []
        · subst hm
          simp [fetchGo, extractPatients, pageContribution, List.range']
        · by_cases h5 : 5 ≤ m.length
          · obtain ⟨ihr, ihp⟩ := ih (page + 1) (acc ++ m)
            simp only [fetchGo, extractPatients, List.isEmpty_iff, hm, reduceIte, h5,
              consPage, List.length_cons, List.take_succ_cons, List.map_cons, List.flatten_cons,
              Option.getD_some, pageContribution, List.range'_succ]
            refine ⟨?_, by rw [ihp, List.length_range']⟩
            rw [ihr, List.append_assoc]
          · simp [fetchGo, extractPatients, List.isEmpty_iff, hm, h5,
              pageContribution, List.range']

/-- C7: fetchAllPatients returns exactly the concatenation, in fetch order,
    of the record arrays of the successfully fetched pages among the consumed
    responses (failed, falsy and unrecognized pages contributing nothing), and
    it requests consecutive pages starting at 1; page failures are swallowed
    by the loop (the run produces a result, never a propagated error), so
    failures only reduce the records returned. -/
theorem fetchAllPatients_concat_of_successes (rs : List PageResp) :
    (fetchAllPatients rs).records
        = ((rs.take (fetchAllPatients rs).pages.length).map pageContribution).flatten
    ∧ (fetchAllPatients rs).pages
        = List.range' 1 (fetchAllPatients rs).pages.length := by
  have h := fetchGo_concat_pages rs 1 []
  simpa [fetchAllPatients] using h

/-- A digit character differs from every non-digit character. -/
theorem digit_ne_of_not_digit (c c2 : Char) (h : isDigitCh c = true)
    (h2 : isDigitCh c2 = false) : c ≠ c2 := by
  intro he
  subst he
  rw [h] at h2
  exact Bool.noConfusion h2

/-- A digit character is not whitespace. -/
theorem digit_not_ws (c : Char) (h : isDigitCh c = true) : isWsCh c = false := by
  have h1 := digit_ne_of_not_digit c ' ' h (by decide)
  have h2 := digit_ne_of_not_digit c '\t' h (by decide)
  have h3 := digit_ne_of_not_digit c '\n' h (by decide)
  have h4 := digit_ne_of_not_digit c '\r' h (by decide)
  simp [isWsCh, h1, h2, h3, h4]

/-- Upper-casing leaves a digit character unchanged. -/
theorem digit_upChar (c : Char) (h : isDigitCh c = true) : upChar c = c := by
  simp [isDigitCh] at h
  simp [upChar]
  omega

/-- takeWhile and dropWhile on an appended list whose left part satisfies the
    predicate and whose right part starts with a failing element. -/
theorem takeWhile_dropWhile_append (p : Char → Bool) (l r : List Char)
    (hl : ∀ c ∈ l, p c = true) (hr : ∀ c, r.head? = some c → p c = false) :
    (l ++ r).takeWhile p = l ∧ (l ++ r).dropWhile p = r := by
  induction l with
  | nil =>
    simp only [List.nil_append]
    cases r with
    | nil => simp [List.takeWhile, List.dropWhile]
    | cons c cs =>
      have := hr c rfl
      simp [List.takeWhile, List.dropWhile, this]
  | cons a as ih =>
    have ha := hl a (by simp)
    have ih2 := ih (fun c hc => hl c (by simp [hc]))
    simp [List.takeWhile, List.dropWhile, ha, ih2.1, ih2.2]

/-- parseFloatCore on digits, a dot, more digits and a non-digit tail parses
    exactly the decimal prefix. -/
theorem parseFloatCore_digits_dot (ds fs : List Char) (c : Char) (cs : List Char)
    (hds : ds ≠ []) (h1 : ∀ x ∈ ds, isDigitCh x = true)
    (h2 : ∀ x ∈ fs, isDigitCh x = true) (hc : isDigitCh c = false) :
    parseFloatCore (ds ++ '.' :: (fs ++ c :: cs))
      = some ⟨Int.ofNat (digitsVal ds * 10 ^ fs.length + digitsVal fs), fs.length⟩ := by
  obtain ⟨ht, hd⟩ := takeWhile_dropWhile_append isDigitCh ds ('.' :: (fs ++ c :: cs)) h1
    (by intro x hx; simp at hx; subst hx; decide)
  obtain ⟨ht2, -⟩ := takeWhile_dropWhile_append isDigitCh fs (c :: cs) h2
    (by intro x hx; simp at hx; subst hx; exact hc)
  unfold parseFloatCore
  rw [hd, ht]
  simp only [ht2]
  rw [if_neg (by simp [hds])]

/-- parseFloatCore on digits followed directly by a non-digit, non-dot tail
    parses exactly the integer prefix. -/
theorem parseFloatCore_digits_stop (ds : List Char) (c : Char) (cs : List Char)
    (hds : ds ≠ []) (h1 : ∀ x ∈ ds, isDigitCh x = true)
    (hc : isDigitCh c = false) (hdot : c ≠ '.') :
    parseFloatCore (ds ++ c :: cs) = some ⟨Int.ofNat (digitsVal ds), 0⟩ := by
  obtain ⟨ht, hd⟩ := takeWhile_dropWhile_append isDigitCh ds (c :: cs) h1
    (by intro x hx; simp at hx; subst hx; exact hc)
  unfold parseFloatCore
  rw [hd, ht]
  split
  · next rest2 heq =>
    rw [List.cons_eq_cons] at heq
    exact absurd heq.1 hdot
  · rw [if_neg hds]

/-- On a string starting with a digit, parseFloat skips no whitespace and
    reads no sign: it is the core prefix parser. -/
theorem parseFloatStr_digit_head (d : Char) (t : List Char) (hd : isDigitCh d = true) :
    parseFloatStr (d :: t) = parseFloatCore (d :: t) := by
  unfold parseFloatStr
  have hws : (d :: t).dropWhile isWsCh = d :: t := by
    simp [List.dropWhile, digit_not_ws d hd]
  rw [hws]
  split
  · next rest heq =>
    rw [List.cons_eq_cons] at heq
    exact absurd heq.1 (digit_ne_of_not_digit d '-' hd (by decide))
  · next rest heq =>
    rw [List.cons_eq_cons] at heq
    exact absurd heq.1 (digit_ne_of_not_digit d '+' hd (by decide))
  · rfl

/-- A string starting with a digit never matches getTempRisk's invalid-token
    guard. -/
theorem digit_head_no_temp_token (d : Char) (t : List Char) (hd : isDigitCh d = true) :
    upChar d :: t.map upChar ∉ tempInvalidTokens := by
  intro hm
  rw [digit_upChar d hd] at hm
  simp [tempInvalidTokens] at hm
  rcases hm with ⟨rfl, -⟩ | ⟨rfl, -⟩ | ⟨rfl, -⟩ | ⟨rfl, -⟩ | ⟨rfl, -⟩ | ⟨rfl, -⟩ <;>
    exact absurd hd (by decide)

/-- For a digit-headed string whose raw parse succeeds, both getTempRisk and
    the fever test treat the string exactly as the parsed number. -/
theorem getTempRisk_str_eq_num (d : Char) (t : List Char) (v : DecVal)
    (hd : isDigitCh d = true) (hp : parseFloatStr (d :: t) = some v) :
    getTempRisk (TempInput.str (d :: t)) = getTempRisk (TempInput.num v)
    ∧ feverTest (TempInput.str (d :: t)) = feverTest (TempInput.num v) := by
  have htok := digit_head_no_temp_token d t hd
  constructor
  · simp [getTempRisk, parseFloatJs, hp, tempTokenHit, htok]
  · simp [feverTest, parseFloatJs, hp]

/-- C10: a temperature string made of a numeric prefix followed by trailing
    non-numeric characters (with or without a fractional part, as in
    "99.9F") is treated by getTempRisk and by the fever classification as the
    successfully parsed number with the prefix's value: both functions give
    the same answers on the string as on that plain number, so it is scored
    in the normal bands with no invalid flag. -/
theorem temp_numeric_prefix_with_trailing (ds fs cs : List Char) (c : Char)
    (hds : ds ≠ []) (h1 : ∀ x ∈ ds, isDigitCh x = true)
    (h2 : ∀ x ∈ fs, isDigitCh x = true) (hc : isDigitCh c = false) :
    (getTempRisk (TempInput.str (ds ++ '.' :: (fs ++ c :: cs)))
        = getTempRisk (TempInput.num
            ⟨Int.ofNat (digitsVal ds * 10 ^ fs.length + digitsVal fs), fs.length⟩)
      ∧ feverTest (TempInput.str (ds ++ '.' :: (fs ++ c :: cs)))
        = feverTest (TempInput.num
            ⟨Int.ofNat (digitsVal ds * 10 ^ fs.length + digitsVal fs), fs.length⟩))
    ∧ (c ≠ '.' →
      getTempRisk (TempInput.str (ds ++ c :: cs))
          = getTempRisk (TempInput.num ⟨Int.ofNat (digitsVal ds), 0⟩)
        ∧ feverTest (TempInput.str (ds ++ c :: cs))
          = feverTest (TempInput.num ⟨Int.ofNat (digitsVal ds), 0⟩)) := by
  obtain ⟨d, ds2, rfl⟩ : ∃ d ds2, ds = d :: ds2 := by
    cases ds with
    | nil => exact absurd rfl hds
    | cons a b => exact ⟨a, b, rfl⟩
  have hd : isDigitCh d = true := h1 d (by simp)
  constructor
  · have hcore := parseFloatCore_digits_dot (d :: ds2) fs c cs hds h1 h2 hc
    have hstr : parseFloatStr ((d :: ds2) ++ '.' :: (fs ++ c :: cs))
        = some ⟨Int.ofNat (digitsVal (d :: ds2) * 10 ^ fs.length + digitsVal fs), fs.length⟩ := by
      rw [List.cons_append]
      rw [parseFloatStr_digit_head d (ds2 ++ '.' :: (fs ++ c :: cs)) hd]
      rw [← List.cons_append]
      exact hcore
    rw [List.cons_append] at hstr
    exact getTempRisk_str_eq_num d (ds2 ++ '.' :: (fs ++ c :: cs)) _ hd hstr
  · intro hdot
    have hcore := parseFloatCore_digits_stop (d :: ds2) c cs hds h1 hc hdot
    have hstr : parseFloatStr ((d :: ds2) ++ c :: cs)
        = some ⟨Int.ofNat (digitsVal (d :: ds2)), 0⟩ := by
      rw [List.cons_append]
      rw [parseFloatStr_digit_head d (ds2 ++ c :: cs) hd]
      rw [← List.cons_append]
      exact hcore
    rw [List.cons_append] at hstr
    exact getTempRisk_str_eq_num d (ds2 ++ c :: cs) _ hd hstr

/-- Witness for C10 at the concrete string "99.9F": it scores 1 with no
    issue, like the plain number 99.9, and counts as fever. -/
theorem temp_numeric_prefix_with_trailing_witness :
    getTempRisk (TempInput.str ['9','9','.','9','F']) = getTempRisk (TempInput.num ⟨999, 1⟩)
    ∧ getTempRisk (TempInput.num ⟨999, 1⟩) = ⟨1, false⟩
    ∧ feverTest (TempInput.str ['9','9','.','9','F']) = true := by
  have h := (temp_numeric_prefix_with_trailing ['9','9'] ['9'] [] 'F'
    (by decide) (by decide) (by decide) (by decide)).1
  exact ⟨h.1, by decide, h.2.trans (by decide)⟩
